import Mathlib

/-!
Verification of the `btils` Go library against its design specification.

The development shallowly embeds the library's components:

* `ThreaderManager`, `NewThreadManager`, `isDone`, `ThreaderManager.stop`
  embed the worker-pool struct and its sequential operations from
  `threader.go`.  Go channel state is a buffer list plus a closed flag;
  a Go runtime panic (close of a closed channel, `make(chan T, n)` with
  negative `n`) is embedded as the `GoPanic` error of an `Except`.
* `SysState` / `Step` give a small-step interleaving semantics of a
  started pool: one feeder sequentially feeding a list of inputs and
  `workers` worker goroutines sharing the bounded channel.  Each atomic
  action of the Go code (the atomic counter add, the channel send, the
  channel receive, the callback returning, the atomic counter decrement,
  worker exit on a closed drained channel) is one step, so every
  interleaving of the goroutines is a path of `Step`.
* `Unmarshal` / `UnmarshalPointer` embed `json.go`; the `io.Reader`
  together with `io.ReadAll` is abstracted as an `Except` of the bytes
  read, and the external `goccy/go-json` deserializer as a function
  argument, since both are external collaborators in the spec.
* `randChars`, `NewUID`, `IsValid`, `UIDFromString`, `ToString` embed the
  UID utilities; Go bytes are `Nat` character codes and the external
  `Fastrand` source is abstracted as the three `Nat` arguments `NewUID`
  consumes.
-/

/-- Go runtime panics that the embedded operations can raise. -/
inductive GoPanic where
  | closeOfClosedChannel
  | makeChanNegativeSize
deriving DecidableEq, Repr

/-- The `ThreaderManager[T]` struct of `threader.go`.  The Go channel is
embedded as its buffer (`queue`), its capacity (`cap`) and its closed
flag (`closed`); `workers` and `counter` are the struct fields of the
same names, and the stored callback is kept abstractly as a value of a
type parameter `C` (its computational effect is modelled by the step
semantics below, not by running it). -/
structure ThreaderManager (T : Type) (C : Type) where
  queue : List T
  closed : Bool
  cap : Nat
  workers : Int
  callback : C
  counter : Int
deriving Repr

/-- `NewThreadManager(workers, callback)`: allocates `make(chan T, workers)`
(which panics at run time when `workers` is negative), stores the worker
count and the callback, and leaves the atomic counter at its zero value.
No validation of `workers` is performed. -/
def NewThreadManager {T C : Type} (workers : Int) (callback : C) :
    Except GoPanic (ThreaderManager T C) :=
  if workers < 0 then
    .error .makeChanNegativeSize
  else
    .ok { queue := [], closed := false, cap := workers.toNat,
          workers := workers, callback := callback, counter := 0 }

/-- `IsDone()`: a single atomic load of the counter compared with zero. -/
def isDone {T C : Type} (tm : ThreaderManager T C) : Bool :=
  tm.counter == 0

/-- `Stop()`: `close(tm.channel)`.  Closing an already-closed Go channel
panics, which the embedding reports as `GoPanic.closeOfClosedChannel`. -/
def ThreaderManager.stop {T C : Type} (tm : ThreaderManager T C) :
    Except GoPanic (ThreaderManager T C) :=
  if tm.closed then
    .error .closeOfClosedChannel
  else
    .ok { tm with closed := true }

/-- `Unmarshal[T](rc)` from `json.go`: `io.ReadAll(rc)` is abstracted as the
already-performed read `readAll` (bytes `B` or a read error), the external
`json.Unmarshal(b, &res)` as `dec` acting on the zero value `zero` of `T`.
A Go return of `(nil, err)` is `.error err` and `(&res, nil)` is `.ok res`. -/
def Unmarshal {T E B : Type} (readAll : Except E B) (dec : B → T → Except E T)
    (zero : T) : Except E T :=
  match readAll with
  | .error e => .error e
  | .ok b =>
    match dec b zero with
    | .error e => .error e
    | .ok v => .ok v

/-- `UnmarshalPointer[T](in, rc)` from `json.go`: identical to `Unmarshal`
except that the deserializer starts from the caller-supplied value `inVal`
(the pointee of `in`) instead of the zero value. -/
def UnmarshalPointer {T E B : Type} (inVal : T) (readAll : Except E B)
    (dec : B → T → Except E T) : Except E T :=
  match readAll with
  | .error e => .error e
  | .ok b =>
    match dec b inVal with
    | .error e => .error e
    | .ok v => .ok v

/-- The 64-character table `randChars`, as byte values. -/
def randChars : List Nat :=
  "abcdefghijklmnopqrstuvwxyzABCDEFGHIJKLMNOPQRSTUVWXYZ0123456789_-".toList.map
    Char.toNat

/-- The per-byte test of `IsValid()`: lowercase, uppercase, digit,
underscore or dash. -/
def isValidByte (b : Nat) : Bool :=
  (decide (Char.toNat 'a' ≤ b) && decide (b ≤ Char.toNat 'z')) ||
  (decide (Char.toNat 'A' ≤ b) && decide (b ≤ Char.toNat 'Z')) ||
  (decide (Char.toNat '0' ≤ b) && decide (b ≤ Char.toNat '9')) ||
  b == Char.toNat '_' || b == Char.toNat '-'

/-- `IsValid()`: every one of the 16 bytes passes `isValidByte`.  (A `UID`
is a `[16]byte`; the embedding uses byte lists of length 16.) -/
def IsValid (uid : List Nat) : Bool :=
  uid.all isValidByte

/-- `NewUID(b)`: fills the 16 bytes from three draws of the external
random source (the `uint32` results `rnd1 rnd2 rnd3`), each index into
`randChars` masked with `&63`, the last byte built from the two leftover
bits of each draw.  An out-of-bounds table index is embedded as `getD`
returning the (invalid) byte 0, where the Go code would panic. -/
def NewUID (rnd1 rnd2 rnd3 : Nat) : List Nat :=
  [randChars.getD (rnd1 &&& 63) 0,
   randChars.getD ((rnd1 >>> 6) &&& 63) 0,
   randChars.getD ((rnd1 >>> 12) &&& 63) 0,
   randChars.getD ((rnd1 >>> 18) &&& 63) 0,
   randChars.getD ((rnd1 >>> 24) &&& 63) 0,
   randChars.getD (rnd2 &&& 63) 0,
   randChars.getD ((rnd2 >>> 6) &&& 63) 0,
   randChars.getD ((rnd2 >>> 12) &&& 63) 0,
   randChars.getD ((rnd2 >>> 18) &&& 63) 0,
   randChars.getD ((rnd2 >>> 24) &&& 63) 0,
   randChars.getD (rnd3 &&& 63) 0,
   randChars.getD ((rnd3 >>> 6) &&& 63) 0,
   randChars.getD ((rnd3 >>> 12) &&& 63) 0,
   randChars.getD ((rnd3 >>> 18) &&& 63) 0,
   randChars.getD ((rnd3 >>> 24) &&& 63) 0,
   randChars.getD
     (((rnd1 >>> 30) &&& 3) ||| (((rnd2 >>> 30) &&& 3) <<< 2) |||
       (((rnd3 >>> 30) &&& 3) <<< 4)) 0]

/-- `UIDFromString(s)`: `nil` when `len(s) < 16`, otherwise the string's
first 16 bytes reinterpreted as a `*UID`. -/
def UIDFromString (s : List Nat) : Option (List Nat) :=
  if s.length < 16 then none else some (s.take 16)

/-- `ToString()`, the method on `*UID`: the 16 bytes of the UID array read
back as a string.  (Named `UID.ToString` because plain `ToString` is taken
by the Lean core library.) -/
def UID.ToString (uid : List Nat) : List Nat :=
  uid.take 16

/-- The point a worker goroutine of `Start()` has reached in its
`for in := range tm.channel` loop body: waiting at the receive (`idle`),
running `tm.callback(in)` (`busy in`), between the callback's return and
the `atomic.AddInt64(&tm.counter, -1)` (`finishing in`), or out of the
loop after the channel closed and drained (`exited`). -/
inductive WState (T : Type) where
  | idle : WState T
  | busy : T → WState T
  | finishing : T → WState T
  | exited : WState T
deriving DecidableEq, Repr

/-- The item a worker currently holds that has not yet finished the
callback. -/
def busyOf {T : Type} : WState T → Option T
  | .busy t => some t
  | _ => none

/-- The item a worker currently holds whose counter decrement is still
outstanding (callback running, or returned but not yet decremented). -/
def heldOf {T : Type} : WState T → Option T
  | .busy t => some t
  | .finishing t => some t
  | _ => none

/-- Items currently inside callbacks across all workers. -/
def busyItems {T : Type} (ws : List (WState T)) : List T :=
  ws.filterMap busyOf

/-- Items across all workers that were dequeued but whose counter
decrement is still outstanding. -/
def held {T : Type} (ws : List (WState T)) : List T :=
  ws.filterMap heldOf

/-- Global state of a started pool together with its one feeding
goroutine: the manager struct, the items the feeder has not yet fed
(`toFeed`), an item whose `atomic.AddInt64(&tm.counter, 1)` has executed
but whose channel send has not (`midFeed`), the worker goroutines, and
event logs recording each `Feed` call (`fedLog`), each channel receive
(`invokedLog`, the callback-invocation order) and each callback return
(`processedLog`). -/
structure SysState (T : Type) (C : Type) where
  tm : ThreaderManager T C
  toFeed : List T
  midFeed : Option T
  ws : List (WState T)
  fedLog : List T
  invokedLog : List T
  processedLog : List T
deriving Repr

/-- One atomic action of any goroutine of the pool.  Each constructor is
one atomic step of the Go code of `threader.go`, so the paths of this
relation are exactly the interleavings of the feeder and the workers:

* `feedIncr` / `feedEnq` — the two halves of `Feed`: the atomic counter
  increment, then the send `tm.channel <- in` (which can fire only while
  the buffer has room and the channel is open);
* `dequeue` — an idle worker's receive of the buffer head, which is where
  the callback invocation starts;
* `finishCb` — `tm.callback(in)` returns;
* `decr` — the worker's `atomic.AddInt64(&tm.counter, -1)`;
* `closeCh` — `Stop()`'s `close(tm.channel)` on an open channel;
* `wexit` — a worker's `range` loop ends once the channel is closed and
  its buffer drained. -/
inductive Step {T C : Type} : SysState T C → SysState T C → Prop where
  | feedIncr : ∀ (s : SysState T C) (t : T) (rest : List T),
      s.toFeed = t :: rest → s.midFeed = none →
      Step s { s with
               tm := { s.tm with counter := s.tm.counter + 1 },
               toFeed := rest, midFeed := some t, fedLog := s.fedLog ++ [t] }
  | feedEnq : ∀ (s : SysState T C) (t : T),
      s.midFeed = some t → s.tm.closed = false →
      s.tm.queue.length < s.tm.cap →
      Step s { s with
               tm := { s.tm with queue := s.tm.queue ++ [t] },
               midFeed := none }
  | dequeue : ∀ (s : SysState T C) (t : T) (rest : List T)
      (pre post : List (WState T)),
      s.tm.queue = t :: rest → s.ws = pre ++ WState.idle :: post →
      Step s { s with
               tm := { s.tm with queue := rest },
               ws := pre ++ WState.busy t :: post,
               invokedLog := s.invokedLog ++ [t] }
  | finishCb : ∀ (s : SysState T C) (t : T) (pre post : List (WState T)),
      s.ws = pre ++ WState.busy t :: post →
      Step s { s with
               ws := pre ++ WState.finishing t :: post,
               processedLog := s.processedLog ++ [t] }
  | decr : ∀ (s : SysState T C) (t : T) (pre post : List (WState T)),
      s.ws = pre ++ WState.finishing t :: post →
      Step s { s with
               ws := pre ++ WState.idle :: post,
               tm := { s.tm with counter := s.tm.counter - 1 } }
  | closeCh : ∀ (s : SysState T C),
      s.tm.closed = false →
      Step s { s with tm := { s.tm with closed := true } }
  | wexit : ∀ (s : SysState T C) (pre post : List (WState T)),
      s.ws = pre ++ WState.idle :: post → s.tm.closed = true →
      s.tm.queue = [] →
      Step s { s with ws := pre ++ WState.exited :: post }

/-- Zero or more interleaved atomic actions. -/
def Reaches {T C : Type} (a b : SysState T C) : Prop :=
  Relation.ReflTransGen Step a b

/-- The state right after `Start()` on a freshly constructed manager that
will be fed `inputs`: `workers` goroutines all blocked at the channel
receive, empty buffer, counter zero, nothing fed yet. -/
def startedPool {T C : Type} (workers : Nat) (callback : C)
    (inputs : List T) : SysState T C :=
  { tm := { queue := [], closed := false, cap := workers,
            workers := (workers : Int), callback := callback, counter := 0 },
    toFeed := inputs, midFeed := none,
    ws := List.replicate workers WState.idle,
    fedLog := [], invokedLog := [], processedLog := [] }

/-- The inductive invariant of a started pool fed from `inputs`:

1. the counter equals the number of items accepted but not yet
   decremented — the mid-feed item, the buffered items, and the items
   workers hold;
2. items are fed, buffered and dequeued in one unbroken order: the feed
   log is the invocation log followed by the buffer followed by the
   mid-feed item;
3. every dequeued item is either through its callback (on the processed
   log) or inside one (held busy by a worker), each exactly once;
4. the feed log is the prefix of `inputs` already consumed by the
   feeder. -/
def PoolInv {T C : Type} (inputs : List T) (s : SysState T C) : Prop :=
  s.tm.counter = ((s.midFeed.toList.length + s.tm.queue.length +
      (held s.ws).length : Nat) : Int)
  ∧ s.fedLog = s.invokedLog ++ s.tm.queue ++ s.midFeed.toList
  ∧ s.invokedLog.Perm (s.processedLog ++ busyItems s.ws)
  ∧ inputs = s.fedLog ++ s.toFeed

/-- Concrete pool states over `Nat` items used to exercise the theorems on
explicit step sequences: one worker, channel capacity one. -/
def exState (counter : Int) (queue toFeed : List Nat) (midFeed : Option Nat)
    (w : WState Nat) (fed inv proc : List Nat) : SysState Nat Nat :=
  { tm := { queue := queue, closed := false, cap := 1, workers := 1,
            callback := 0, counter := counter },
    toFeed := toFeed, midFeed := midFeed, ws := [w],
    fedLog := fed, invokedLog := inv, processedLog := proc }

theorem busyOf_heldOf_none {T : Type} (w : WState T) (h : heldOf w = none) :
    busyOf w = none := by
  cases w <;> simp_all [heldOf, busyOf]

theorem held_replicate_idle {T : Type} (n : Nat) :
    held (List.replicate n (WState.idle (T := T))) = [] := by
  induction n with
  | zero => simp [held]
  | succ n ih => simp [held, List.replicate_succ, heldOf] at ih ⊢

theorem busyItems_eq_nil_of_held {T : Type} (ws : List (WState T))
    (h : held ws = []) : busyItems ws = [] := by
  rw [held, List.filterMap_eq_nil_iff] at h
  rw [busyItems, List.filterMap_eq_nil_iff]
  exact fun w hw => busyOf_heldOf_none w (h w hw)

theorem held_length_of_busy {T : Type} (ws : List (WState T)) :
    (busyItems ws).length ≤ (held ws).length := by
  induction ws with
  | nil => simp [busyItems, held]
  | cons w ws ih =>
      cases w <;> simp [busyItems, held, busyOf, heldOf] at ih ⊢ <;> omega

theorem perm_snoc_middle {T : Type} (t : T) (l₁ l₂ : List T) :
    ((l₁ ++ l₂) ++ [t]).Perm (l₁ ++ t :: l₂) := by
  rw [List.append_assoc]
  exact List.Perm.append_left l₁ List.perm_append_comm

theorem poolInv_start {T C : Type} (w : Nat) (cb : C) (inputs : List T) :
    PoolInv inputs (startedPool w cb inputs) := by
  refine ⟨?_, ?_, ?_, ?_⟩ <;>
    simp [PoolInv, startedPool, held_replicate_idle,
      busyItems_eq_nil_of_held _ (held_replicate_idle w)]

theorem poolInv_step {T C : Type} {inputs : List T} {s s' : SysState T C}
    (hstep : Step s s') (hinv : PoolInv inputs s) : PoolInv inputs s' := by
  obtain ⟨h1, h2, h3, h4⟩ := hinv
  cases hstep with
  | feedIncr t rest hfeed hmid =>
      rw [hmid] at h1 h2
      rw [hfeed] at h4
      refine ⟨?_, ?_, h3, ?_⟩
      · simp at h1 ⊢
        omega
      · simp at h2 ⊢
        simp [h2, List.append_assoc]
      · simp [h4]
  | feedEnq t hmid hcl hlen =>
      rw [hmid] at h1 h2
      refine ⟨?_, ?_, h3, h4⟩
      · simp at h1 ⊢
        omega
      · simpa [List.append_assoc] using h2
  | dequeue t rest pre post hq hws =>
      rw [hq] at h1 h2
      rw [hws] at h1 h3
      refine ⟨?_, ?_, ?_, ?_⟩
      · simp [held, List.filterMap_append, heldOf] at h1 ⊢
        omega
      · simp [h2, List.append_assoc]
      · simp only [busyItems, List.filterMap_append, List.filterMap_cons,
          busyOf] at h3 ⊢
        simp only [← List.append_assoc] at h3 ⊢
        exact (h3.append_right [t]).trans
          (perm_snoc_middle t (s.processedLog ++ pre.filterMap busyOf)
            (post.filterMap busyOf))
      · simpa using h4
  | finishCb t pre post hws =>
      rw [hws] at h1 h3
      refine ⟨?_, h2, ?_, h4⟩
      · simp [held, List.filterMap_append, heldOf] at h1 ⊢
        omega
      · simp only [busyItems, List.filterMap_append, List.filterMap_cons,
          busyOf] at h3 ⊢
        simp only [List.append_assoc, List.singleton_append]
        exact h3.trans (List.Perm.append_left s.processedLog List.perm_middle)
  | decr t pre post hws =>
      rw [hws] at h1 h3
      refine ⟨?_, h2, ?_, h4⟩
      · simp [held, List.filterMap_append, heldOf] at h1 ⊢
        omega
      · simp only [busyItems, List.filterMap_append, List.filterMap_cons,
          busyOf] at h3 ⊢
        exact h3
  | closeCh hcl =>
      exact ⟨h1, h2, h3, h4⟩
  | wexit pre post hws hcl hq =>
      rw [hws] at h1 h3
      refine ⟨?_, h2, ?_, h4⟩
      · simp [held, List.filterMap_append, heldOf] at h1 ⊢
        omega
      · simp only [busyItems, List.filterMap_append, List.filterMap_cons,
          busyOf] at h3 ⊢
        exact h3

theorem poolInv_reaches {T C : Type} {w : Nat} {cb : C} {inputs : List T}
    {s : SysState T C} (h : Reaches (startedPool w cb inputs) s) :
    PoolInv inputs s := by
  induction h with
  | refl => exact poolInv_start w cb inputs
  | tail hab hbc ih => exact poolInv_step hbc ih

theorem exReach1 :
    Reaches (startedPool 1 (0 : Nat) [5])
      (exState 1 [] [] (some 5) WState.idle [5] [] []) :=
  Relation.ReflTransGen.single (Step.feedIncr _ 5 [] rfl rfl)

theorem exReach2 :
    Reaches (startedPool 1 (0 : Nat) [5])
      (exState 1 [5] [] none WState.idle [5] [] []) :=
  Relation.ReflTransGen.tail exReach1 (Step.feedEnq _ 5 rfl rfl (by decide))

theorem exReach3 :
    Reaches (startedPool 1 (0 : Nat) [5])
      (exState 1 [] [] none (WState.busy 5) [5] [5] []) :=
  Relation.ReflTransGen.tail exReach2 (Step.dequeue _ 5 [] [] [] rfl rfl)

theorem exReach4 :
    Reaches (startedPool 1 (0 : Nat) [5])
      (exState 1 [] [] none (WState.finishing 5) [5] [5] [5]) :=
  Relation.ReflTransGen.tail exReach3 (Step.finishCb _ 5 [] [] rfl)

theorem exReach5 :
    Reaches (startedPool 1 (0 : Nat) [5])
      (exState 0 [] [] none WState.idle [5] [5] [5]) :=
  Relation.ReflTransGen.tail exReach4 (Step.decr _ 5 [] [] rfl)

/-- Claim C1: `IsDone()` returns true if and only if the pending counter
equals zero at the instant it is read.  `isDone` is the embedding of the
single atomic load of `threader.go`; being a pure function of the manager
state, it takes no lock, changes nothing and cannot block. -/
theorem isDone_iff_pending_zero {T C : Type} (tm : ThreaderManager T C) :
    isDone tm = true ↔ tm.counter = 0 := by
  simp [isDone]

/-- Claim C2: in every reachable state of a started pool in which all of
`inputs` has been fed and all workers have finished (nothing mid-feed,
buffer empty, no worker holding an item), the callback has been invoked
exactly once per fed item — the processed log is a permutation of the
whole input sequence — and the pending counter is back at exactly zero.
This holds for every interleaving, since `Reaches` ranges over all paths
of the step relation. -/
theorem pool_completion_exact_once {T C : Type} (w : Nat) (cb : C)
    (inputs : List T) (s : SysState T C)
    (hreach : Reaches (startedPool w cb inputs) s)
    (hfed : s.toFeed = []) (hmid : s.midFeed = none)
    (hq : s.tm.queue = []) (hheld : held s.ws = []) :
    s.processedLog.Perm inputs ∧ s.tm.counter = 0 ∧ isDone s.tm = true := by
  obtain ⟨h1, h2, h3, h4⟩ := poolInv_reaches hreach
  rw [hmid] at h1 h2
  rw [hq] at h1 h2
  rw [hheld] at h1
  rw [hfed] at h4
  rw [busyItems_eq_nil_of_held s.ws hheld] at h3
  simp at h1 h2 h3 h4
  refine ⟨?_, h1, by simp [isDone, h1]⟩
  rw [h4, h2]
  exact h3.symm

/-- Claim C3: `Feed` performs its counter increment strictly before the
enqueue (the two are separate steps `feedIncr` and `feedEnq`), and the
decrement happens only after the callback returns (`finishCb` precedes
`decr`); consequently in no reachable state with an unfinished fed item —
one mid-feed, one still buffered, or one inside a callback — does
`IsDone()` return true. -/
theorem isDone_false_while_unfinished {T C : Type} {w : Nat} {cb : C}
    {inputs : List T} {s : SysState T C}
    (hreach : Reaches (startedPool w cb inputs) s)
    (hunfin : s.midFeed.isSome = true ∨ s.tm.queue ≠ [] ∨
      busyItems s.ws ≠ []) :
    isDone s.tm = false := by
  obtain ⟨h1, -, -, -⟩ := poolInv_reaches hreach
  have hlen : 0 < s.midFeed.toList.length + s.tm.queue.length +
      (held s.ws).length := by
    rcases hunfin with h | h | h
    · cases hm : s.midFeed <;> simp_all
    · have := List.length_pos.mpr h
      omega
    · have hb := List.length_pos.mpr h
      have := held_length_of_busy s.ws
      omega
  simp only [isDone, beq_eq_false_iff_ne, ne_eq]
  omega

/-- Claim C6: items are dequeued by workers in exactly the order they were
fed: in every reachable state the feed log is the dequeue (invocation) log
followed by the still-buffered items and the mid-feed item, so the
dequeue order is a prefix of the feed order.  (Completion order is
unconstrained: `processedLog` appears nowhere here.) -/
theorem fifo_dequeue_order {T C : Type} {w : Nat} {cb : C} {inputs : List T}
    {s : SysState T C} (hreach : Reaches (startedPool w cb inputs) s) :
    s.fedLog = s.invokedLog ++ (s.tm.queue ++ s.midFeed.toList) := by
  obtain ⟨-, h2, -, -⟩ := poolInv_reaches hreach
  simpa [List.append_assoc] using h2

theorem pool_completion_exact_once_witness :
    (exState 0 [] [] none WState.idle [5] [5] [5]).processedLog.Perm [5] ∧
    (exState 0 [] [] none WState.idle [5] [5] [5]).tm.counter = 0 ∧
    isDone (exState 0 [] [] none WState.idle [5] [5] [5]).tm = true :=
  pool_completion_exact_once 1 0 [5] _ exReach5 rfl rfl rfl rfl

theorem isDone_false_while_unfinished_witness :
    isDone (exState 1 [] [] (some 5) WState.idle [5] [] []).tm = false :=
  isDone_false_while_unfinished exReach1 (Or.inl rfl)

theorem fifo_dequeue_order_witness :
    (exState 1 [5] [] none WState.idle [5] [] []).fedLog =
      (exState 1 [5] [] none WState.idle [5] [] []).invokedLog ++
        ((exState 1 [5] [] none WState.idle [5] [] []).tm.queue ++
          (exState 1 [5] [] none WState.idle [5] [] []).midFeed.toList) :=
  fifo_dequeue_order exReach2

/-- Claim C7: `Stop()` only closes the queue.  On any not-yet-closed
manager — whatever the pending counter, buffer contents or worker states —
`stop` immediately returns success (it is a total function, so it waits
for nothing), flips only the closed flag, and leaves the buffer, the
capacity, the worker count, the stored callback and the pending counter
unchanged. -/
theorem stop_frame {T C : Type} (tm : ThreaderManager T C)
    (h : tm.closed = false) :
    ∃ tm', tm.stop = .ok tm' ∧ tm'.closed = true ∧
      tm'.queue = tm.queue ∧ tm'.cap = tm.cap ∧ tm'.workers = tm.workers ∧
      tm'.callback = tm.callback ∧ tm'.counter = tm.counter := by
  refine ⟨{ tm with closed := true }, ?_, rfl, rfl, rfl, rfl, rfl, rfl⟩
  simp [ThreaderManager.stop, h]

theorem stop_frame_witness :
    ∃ tm', ({ queue := [3], closed := false, cap := 2, workers := 2,
              callback := 7, counter := 5 } : ThreaderManager Nat Nat).stop =
          .ok tm' ∧ tm'.closed = true ∧
      tm'.queue = [3] ∧ tm'.cap = 2 ∧ tm'.workers = 2 ∧
      tm'.callback = 7 ∧ tm'.counter = 5 :=
  stop_frame { queue := [3], closed := false, cap := 2, workers := 2,
               callback := 7, counter := 5 } rfl

/-- Counterexample to claim C5 as stated: on a freshly constructed pool,
the first `Stop()` succeeds and the second hits Go's close-of-closed-
channel panic (embedded as the `GoPanic` error).  `Stop` has no return
value in the source, so the panic is neither an idempotent no-op nor a
reported error: it crashes the process unless a caller recovers it. -/
theorem stop_twice_counterexample :
    (NewThreadManager (T := Nat) (C := Nat) 2 0).bind
      (fun tm => tm.stop.bind ThreaderManager.stop) =
      .error GoPanic.closeOfClosedChannel := rfl

/-- Claim C5 (amended): calling `Stop` a second time on the same pool
panics — `close(tm.channel)` on the already-closed channel raises Go's
close-of-closed-channel run-time panic rather than being a no-op or
returning an error. -/
theorem stop_twice_panics {T C : Type} (tm : ThreaderManager T C)
    (h : tm.closed = false) :
    tm.stop = .ok { tm with closed := true } ∧
      ThreaderManager.stop { tm with closed := true } =
        .error GoPanic.closeOfClosedChannel := by
  constructor
  · simp [ThreaderManager.stop, h]
  · simp [ThreaderManager.stop]

theorem stop_twice_panics_witness :
    ({ queue := [], closed := false, cap := 2, workers := 2, callback := 0,
       counter := 0 } : ThreaderManager Nat Nat).stop =
      .ok { queue := [], closed := true, cap := 2, workers := 2,
            callback := 0, counter := 0 } ∧
    ({ queue := [], closed := true, cap := 2, workers := 2, callback := 0,
       counter := 0 } : ThreaderManager Nat Nat).stop =
      .error GoPanic.closeOfClosedChannel :=
  stop_twice_panics { queue := [], closed := false, cap := 2, workers := 2,
                      callback := 0, counter := 0 } rfl

/-- Counterexample to claim C4 as stated: at the non-positive worker
count 0, `NewThreadManager` neither rejects nor clamps — it returns a
pool whose worker count is still 0 (so no worker will ever drain the
queue and a later `Feed` would block forever). -/
theorem newThreadManager_zero_counterexample :
    NewThreadManager (T := Nat) (C := Nat) 0 7 =
      .ok { queue := [], closed := false, cap := 0, workers := 0,
            callback := 7, counter := 0 } := rfl

/-- Claim C4 (amended): `NewThreadManager` performs no worker-count
validation.  Every non-negative count — including 0 — is accepted as-is,
returning a pool that can deadlock later; a negative count is not
rejected at validation but panics inside `make(chan T, workers)`. -/
theorem newThreadManager_no_validation {T C : Type} (w : Int) (cb : C) :
    (w < 0 →
      NewThreadManager (T := T) w cb = .error GoPanic.makeChanNegativeSize) ∧
    (0 ≤ w → NewThreadManager (T := T) w cb =
      .ok { queue := [], closed := false, cap := w.toNat, workers := w,
            callback := cb, counter := 0 }) := by
  constructor
  · intro h
    simp [NewThreadManager, h]
  · intro h
    simp [NewThreadManager, Int.not_lt.mpr h]

theorem newThreadManager_no_validation_witness :
    NewThreadManager (T := Nat) (C := Nat) (-1) 7 =
      .error GoPanic.makeChanNegativeSize ∧
    NewThreadManager (T := Nat) (C := Nat) 0 7 =
      .ok { queue := [], closed := false, cap := 0, workers := 0,
            callback := 7, counter := 0 } :=
  ⟨(newThreadManager_no_validation (-1) 7).1 (by decide),
   (newThreadManager_no_validation 0 7).2 (by decide)⟩

/-- Claim C8: the deserialization wrappers read all input, delegate, and
return either the error (read failure or deserializer failure — with no
value, which is Go's nil result pointer) or the populated value with no
error; nothing else.  Each result of `Unmarshal` and `UnmarshalPointer`
is characterised exactly by the outcome of the read and of the delegated
deserializer. -/
theorem unmarshal_contract {T E B : Type} (readAll : Except E B)
    (dec : B → T → Except E T) (zero inVal : T) :
    (∀ e, Unmarshal readAll dec zero = .error e ↔
      (readAll = .error e ∨ ∃ b, readAll = .ok b ∧ dec b zero = .error e)) ∧
    (∀ v, Unmarshal readAll dec zero = .ok v ↔
      (∃ b, readAll = .ok b ∧ dec b zero = .ok v)) ∧
    (∀ e, UnmarshalPointer inVal readAll dec = .error e ↔
      (readAll = .error e ∨ ∃ b, readAll = .ok b ∧ dec b inVal = .error e)) ∧
    (∀ v, UnmarshalPointer inVal readAll dec = .ok v ↔
      (∃ b, readAll = .ok b ∧ dec b inVal = .ok v)) := by
  cases readAll with
  | error e => simp [Unmarshal, UnmarshalPointer]
  | ok b =>
    refine ⟨?_, ?_, ?_, ?_⟩ <;> intro x <;>
      cases hd : dec b zero <;> cases hd2 : dec b inVal <;>
        simp [Unmarshal, UnmarshalPointer, hd, hd2]

theorem randChars_length : randChars.length = 64 := rfl

theorem validIdx :
    ∀ i : Nat, i < 64 → isValidByte (randChars.getD i 0) = true := by decide

theorem last_idx_lt :
    ∀ a : Nat, a < 4 → ∀ b : Nat, b < 4 → ∀ c : Nat, c < 4 →
      (a ||| b <<< 2 ||| c <<< 4) < 64 := by decide

/-- Claim C9: for every triple of values drawn from the random source,
`NewUID` writes all 16 bytes, every index into the 64-entry character
table is masked into `0..63` and hence in bounds, and the resulting UID
satisfies `IsValid`. -/
theorem newUID_valid (r1 r2 r3 : Nat) :
    (∀ x : Nat, x &&& 63 < randChars.length) ∧
    (NewUID r1 r2 r3).length = 16 ∧
    IsValid (NewUID r1 r2 r3) = true := by
  have hb : ∀ x : Nat, x &&& 63 < 64 :=
    fun x => Nat.lt_succ_of_le Nat.and_le_right
  have hv : ∀ x : Nat, isValidByte (randChars.getD (x &&& 63) 0) = true :=
    fun x => validIdx _ (hb x)
  have h3 : ∀ x : Nat, x &&& 3 < 4 :=
    fun x => Nat.lt_succ_of_le Nat.and_le_right
  have hlast : isValidByte (randChars.getD
      (((r1 >>> 30) &&& 3) ||| (((r2 >>> 30) &&& 3) <<< 2) |||
        (((r3 >>> 30) &&& 3) <<< 4)) 0) = true :=
    validIdx _ (last_idx_lt _ (h3 _) _ (h3 _) _ (h3 _))
  refine ⟨fun x => ?_, rfl, ?_⟩
  · rw [randChars_length]
    exact hb x
  · simp only [NewUID, IsValid, List.all_cons, List.all_nil,
      Bool.and_eq_true, Bool.and_true]
    exact ⟨hv _, hv _, hv _, hv _, hv _, hv _, hv _, hv _, hv _, hv _,
      hv _, hv _, hv _, hv _, hv _, hlast⟩

/-- Claim C10: `UIDFromString` returns nil exactly on strings shorter
than 16 bytes; on any string of length at least 16 it returns a UID, and
the UID it returns reads back (`ToString`) as exactly the 16-byte prefix
of the input. -/
theorem uidFromString_roundtrip (s : List Nat) :
    (UIDFromString s = none ↔ s.length < 16) ∧
    (16 ≤ s.length → UIDFromString s = some (s.take 16)) ∧
    (∀ u, UIDFromString s = some u → UID.ToString u = s.take 16) := by
  by_cases h : s.length < 16
  · refine ⟨by simp [UIDFromString, h], ?_, ?_⟩
    · intro hle
      omega
    · intro u hu
      simp [UIDFromString, h] at hu
  · refine ⟨by simp [UIDFromString, h], ?_, ?_⟩
    · intro _
      simp [UIDFromString, h]
    · intro u hu
      simp [UIDFromString, h] at hu
      rw [← hu]
      simp [UID.ToString, List.take_take]

theorem uidFromString_roundtrip_witness :
    UIDFromString (List.replicate 16 97) =
      some ((List.replicate 16 97).take 16) ∧
    UID.ToString ((List.replicate 16 97).take 16) =
      (List.replicate 16 97).take 16 :=
  ⟨(uidFromString_roundtrip (List.replicate 16 97)).2.1 (by decide),
   (uidFromString_roundtrip (List.replicate 16 97)).2.2 _
     ((uidFromString_roundtrip (List.replicate 16 97)).2.1 (by decide))⟩
